import Mathlib

/-!
Verification of the laser_mapping repository against its specification.

The repository pairs a FastAPI backend (the point-cloud accumulation and
segmentation engine: PointCloud store, PlaneFitter, ObjectClusterer,
BoundingBoxComputer, Exporter) with a React/Three.js frontend (scan
simulation and viewers).  The backend sources are not part of the
checkout, so the backend components are modelled from the specification
text; the frontend pieces (`sendSample`, the serpentine raster scan in
`SimulationScene.tsx`) are embedded directly from the TypeScript source.

Numbers ingested from JSON are modelled as exact rationals; the
distinction the spec draws is only finite / non-finite / missing, which
the `JsonNum` type captures.
-/

namespace LaserMapping

/-- Modelled from the spec: a JSON numeric field as received by ingestion.
The spec distinguishes only finite values from non-finite (NaN, ±Inf)
and missing fields, so a finite value is carried as an exact rational. -/
inductive JsonNum where
  | num (q : ℚ)
  | nan
  | inf
  | neginf
  | missing
deriving DecidableEq, Repr

/-- Modelled from the spec: finiteness test on a JSON numeric field. -/
def JsonNum.isFinite : JsonNum → Bool
  | .num _ => true
  | _ => false

/-- Modelled from the spec: a raw ingestion sample with fields
`x, y, z, distance`, any of which may be non-finite or missing. -/
structure RawSample where
  x : JsonNum
  y : JsonNum
  z : JsonNum
  distance : JsonNum
deriving DecidableEq, Repr

/-- Modelled from the spec: a validated point `(x, y, z)` plus the
sensor-reported `distance`, immutable once appended. -/
structure Point where
  x : ℚ
  y : ℚ
  z : ℚ
  distance : ℚ
deriving DecidableEq, Repr

/-- Modelled from the spec: the error taxonomy of §7.  `ValidationError`
is the only user-visible ingestion error. -/
inductive IngestError where
  | ValidationError
deriving DecidableEq, Repr

/-- Modelled from the spec: validation of a raw sample; succeeds exactly
when every field is finite, otherwise fails with `ValidationError`
before the point reaches the store. -/
def validate (s : RawSample) : Except IngestError Point :=
  match s.x, s.y, s.z, s.distance with
  | .num a, .num b, .num c, .num d => .ok ⟨a, b, c, d⟩
  | _, _, _, _ => .error .ValidationError

/-- Modelled from the spec: the PointCloud store — an ordered sequence of
points plus a unit label, insertion order part of the observable
contract. -/
structure PointCloud where
  units : String
  points : List Point
deriving DecidableEq, Repr

/-- Modelled from the spec: number of points currently in the cloud. -/
def PointCloud.size (c : PointCloud) : ℕ := c.points.length

/-- Modelled from the spec: `append(point)` — validates the sample and
adds it at the end of the sequence, or fails with `ValidationError`
leaving the cloud untouched. -/
def PointCloud.append (c : PointCloud) (s : RawSample) : Except IngestError PointCloud :=
  match validate s with
  | .ok p => .ok { c with points := c.points ++ [p] }
  | .error e => .error e

/-- Modelled from the spec: `appendBatch(points)` — appends the samples
in list order as a unit; fails with `ValidationError` (appending
nothing) if any sample is invalid. -/
def PointCloud.appendBatch (c : PointCloud) (ss : List RawSample) : Except IngestError PointCloud :=
  match ss.mapM validate with
  | .ok ps => .ok { c with points := c.points ++ ps }
  | .error e => .error e

/-- Modelled from the spec: `clear()` — empties the store. -/
def PointCloud.clear (c : PointCloud) : PointCloud :=
  { c with points := [] }

/-- Modelled from the spec: the service-level ingestion operations that
can mutate the cloud (single sample, batch, clear). -/
inductive Op where
  | sample (s : RawSample)
  | samples (ss : List RawSample)
  | clearCloud
deriving DecidableEq, Repr

/-- Modelled from the spec: the state transition of one ingestion
operation; a validation failure leaves the cloud unchanged. -/
def stepOp (c : PointCloud) : Op → PointCloud
  | .sample s =>
    match c.append s with
    | .ok c' => c'
    | .error _ => c
  | .samples ss =>
    match c.appendBatch ss with
    | .ok c' => c'
    | .error _ => c
  | .clearCloud => c.clear

/-- Modelled from the spec: running a sequence of ingestion operations. -/
def runOps (c : PointCloud) (ops : List Op) : PointCloud :=
  ops.foldl stepOp c

/-- A raw sample is valid when all four fields are finite. -/
def RawSample.allFinite (s : RawSample) : Bool :=
  s.x.isFinite && s.y.isFinite && s.z.isFinite && s.distance.isFinite

/-- The point a valid sample validates to. -/
def RawSample.toPoint (s : RawSample) : Point :=
  match s.x, s.y, s.z, s.distance with
  | .num a, .num b, .num c, .num d => ⟨a, b, c, d⟩
  | _, _, _, _ => ⟨0, 0, 0, 0⟩

lemma validate_eq_ok_iff (s : RawSample) :
    validate s = .ok s.toPoint ↔ s.allFinite = true := by
  cases s with
  | mk x y z d =>
    cases x <;> cases y <;> cases z <;> cases d <;>
      simp [validate, RawSample.allFinite, RawSample.toPoint, JsonNum.isFinite]

lemma validate_eq_error_iff (s : RawSample) :
    validate s = .error .ValidationError ↔ s.allFinite = false := by
  cases s with
  | mk x y z d =>
    cases x <;> cases y <;> cases z <;> cases d <;>
      simp [validate, RawSample.allFinite, JsonNum.isFinite]

lemma append_of_valid {s : RawSample} (c : PointCloud) (h : s.allFinite = true) :
    c.append s = .ok { c with points := c.points ++ [s.toPoint] } := by
  unfold PointCloud.append
  rw [(validate_eq_ok_iff s).mpr h]

lemma append_of_invalid {s : RawSample} (c : PointCloud) (h : s.allFinite = false) :
    c.append s = .error .ValidationError := by
  unfold PointCloud.append
  rw [(validate_eq_error_iff s).mpr h]

/-- Modelled from the spec: the plain JSON cloud export — the units plus
the ordered `(x, y, z, distance)` record of every point. -/
structure JsonExport where
  units : String
  points : List (ℚ × ℚ × ℚ × ℚ)
deriving DecidableEq, Repr

/-- Modelled from the spec: `exportJSON()` — deterministic serialization
of the current point sequence in insertion order. -/
def PointCloud.exportJSON (c : PointCloud) : JsonExport :=
  { units := c.units, points := c.points.map fun p => (p.x, p.y, p.z, p.distance) }

/-- Modelled from the spec: the PLY-style export — a header declaring the
vertex count and one `x y z` record per point in cloud order. -/
structure PlyExport where
  vertexCount : ℕ
  records : List (ℚ × ℚ × ℚ)
deriving DecidableEq, Repr

/-- Modelled from the spec: `exportPLY()` — the structured geometry
export, one record per point in cloud order. -/
def PointCloud.exportPLY (c : PointCloud) : PlyExport :=
  { vertexCount := c.points.length
    records := c.points.map fun p => (p.x, p.y, p.z) }

lemma runOps_sample_points (c : PointCloud) (ss : List RawSample)
    (h : ∀ s ∈ ss, s.allFinite = true) :
    (runOps c (ss.map Op.sample)).points = c.points ++ ss.map RawSample.toPoint := by
  induction ss generalizing c with
  | nil => simp [runOps]
  | cons s rest ih =>
    have hs : s.allFinite = true := h s (by simp)
    have hrest : ∀ t ∈ rest, t.allFinite = true := fun t ht => h t (by simp [ht])
    simp only [List.map_cons, runOps, List.foldl_cons]
    have hstep : stepOp c (Op.sample s) = { c with points := c.points ++ [s.toPoint] } := by
      simp [stepOp, append_of_valid c hs]
    rw [hstep]
    have := ih { c with points := c.points ++ [s.toPoint] } hrest
    simp only [runOps] at this
    simp [this]

lemma runOps_sample_units (c : PointCloud) (ss : List RawSample)
    (h : ∀ s ∈ ss, s.allFinite = true) :
    (runOps c (ss.map Op.sample)).units = c.units := by
  induction ss generalizing c with
  | nil => simp [runOps]
  | cons s rest ih =>
    have hs : s.allFinite = true := h s (by simp)
    have hrest : ∀ t ∈ rest, t.allFinite = true := fun t ht => h t (by simp [ht])
    simp only [List.map_cons, runOps, List.foldl_cons]
    have hstep : stepOp c (Op.sample s) = { c with points := c.points ++ [s.toPoint] } := by
      simp [stepOp, append_of_valid c hs]
    rw [hstep]
    exact ih _ hrest

/-- A valid sample fixture used by concrete witnesses. -/
def sampleA : RawSample := ⟨.num 1, .num 2, .num 0, .num 3⟩

/-- A second valid sample fixture used by concrete witnesses. -/
def sampleB : RawSample := ⟨.num (-1), .num 0, .num 5, .num 2⟩

/-- An invalid sample fixture (NaN coordinate) used by concrete witnesses. -/
def sampleBad : RawSample := ⟨.num 1, .nan, .num 0, .num 3⟩

/-- An invalid sample fixture (missing distance) used by concrete witnesses. -/
def sampleMissing : RawSample := ⟨.num 1, .num 2, .num 3, .missing⟩

/-- An empty cloud fixture used by concrete witnesses. -/
def cloudEmpty : PointCloud := ⟨"meters", []⟩

/-- C3: `append(point)` succeeds (appending the validated point) whenever
all coordinates and the distance are finite, and fails with a
`ValidationError` whenever some field is non-finite or missing; in the
failure case the service-level transition leaves the cloud unchanged. -/
theorem append_validation_spec (c : PointCloud) (s : RawSample) :
    (s.allFinite = true →
      c.append s = .ok { c with points := c.points ++ [s.toPoint] }) ∧
    (s.allFinite = false →
      c.append s = .error .ValidationError ∧ stepOp c (.sample s) = c) := by
  refine ⟨fun h => append_of_valid c h, fun h => ⟨append_of_invalid c h, ?_⟩⟩
  simp [stepOp, append_of_invalid c h]

theorem append_validation_spec_witness :
    cloudEmpty.append sampleA =
      .ok { cloudEmpty with points := cloudEmpty.points ++ [sampleA.toPoint] } ∧
    cloudEmpty.append sampleBad = .error .ValidationError ∧
    stepOp cloudEmpty (.sample sampleBad) = cloudEmpty ∧
    cloudEmpty.append sampleMissing = .error .ValidationError := by
  refine ⟨(append_validation_spec cloudEmpty sampleA).1 (by decide), ?_, ?_, ?_⟩
  · exact ((append_validation_spec cloudEmpty sampleBad).2 (by decide)).1
  · exact ((append_validation_spec cloudEmpty sampleBad).2 (by decide)).2
  · exact ((append_validation_spec cloudEmpty sampleMissing).2 (by decide)).1

/-- C4: after a sequence of valid appends the cloud size is the prior
size plus the number of appended points; `clear()` reduces the size to
zero; and appends after a clear start a fresh sequence whose size is
exactly the number of points appended since the clear. -/
theorem append_sequence_size (c : PointCloud) (ss : List RawSample)
    (h : ∀ s ∈ ss, s.allFinite = true) :
    (runOps c (ss.map Op.sample)).size = c.size + ss.length ∧
    (stepOp c .clearCloud).size = 0 ∧
    (runOps (stepOp c .clearCloud) (ss.map Op.sample)).size = ss.length := by
  refine ⟨?_, by simp [stepOp, PointCloud.clear, PointCloud.size], ?_⟩
  · simp [PointCloud.size, runOps_sample_points c ss h]
  · have : stepOp c .clearCloud = { c with points := [] } := rfl
    rw [this]
    simp [PointCloud.size, runOps_sample_points { c with points := [] } ss h]

theorem append_sequence_size_witness :
    (runOps cloudEmpty ([sampleA, sampleB].map Op.sample)).size = cloudEmpty.size + 2 ∧
    (stepOp cloudEmpty .clearCloud).size = 0 ∧
    (runOps (stepOp cloudEmpty .clearCloud) ([sampleA, sampleB].map Op.sample)).size = 2 :=
  append_sequence_size cloudEmpty [sampleA, sampleB] (by decide)

/-- C5: exports are order-preserving — on a cloud built by valid appends
with no intervening clear, the i-th record of the JSON export and of the
PLY export is the record of the i-th appended point. -/
theorem export_order_preserving (u : String) (ss : List RawSample) (i : ℕ)
    (hv : ∀ s ∈ ss, s.allFinite = true) (hi : i < ss.length) :
    (PointCloud.exportJSON (runOps ⟨u, []⟩ (ss.map Op.sample))).points[i]? =
      some ((ss.get ⟨i, hi⟩).toPoint.x, (ss.get ⟨i, hi⟩).toPoint.y,
            (ss.get ⟨i, hi⟩).toPoint.z, (ss.get ⟨i, hi⟩).toPoint.distance) ∧
    (PointCloud.exportPLY (runOps ⟨u, []⟩ (ss.map Op.sample))).records[i]? =
      some ((ss.get ⟨i, hi⟩).toPoint.x, (ss.get ⟨i, hi⟩).toPoint.y,
            (ss.get ⟨i, hi⟩).toPoint.z) := by
  have hpts : (runOps ⟨u, []⟩ (ss.map Op.sample)).points = ss.map RawSample.toPoint := by
    simpa using runOps_sample_points ⟨u, []⟩ ss hv
  constructor
  · simp [PointCloud.exportJSON, hpts, List.getElem?_map, List.getElem?_eq_getElem,
      hi, List.get_eq_getElem]
  · simp [PointCloud.exportPLY, hpts, List.getElem?_map, List.getElem?_eq_getElem,
      hi, List.get_eq_getElem]

theorem export_order_preserving_witness :
    (PointCloud.exportJSON (runOps ⟨"meters", []⟩ ([sampleA, sampleB].map Op.sample))).points[1]? =
      some ((-1 : ℚ), (0 : ℚ), (5 : ℚ), (2 : ℚ)) ∧
    (PointCloud.exportPLY (runOps ⟨"meters", []⟩ ([sampleA, sampleB].map Op.sample))).records[1]? =
      some ((-1 : ℚ), (0 : ℚ), (5 : ℚ)) := by
  have h := export_order_preserving "meters" [sampleA, sampleB] 1 (by decide) (by decide)
  simpa [sampleB, RawSample.toPoint] using h

/-! Frontend embeddings, from `FrontEnd/src/SimulationScene.tsx`. -/

/-- A `THREE.Vector3` as used by the simulation scene, with exact real
components. -/
structure Vec3 where
  x : ℝ
  y : ℝ
  z : ℝ

/-- `THREE.Vector3.distanceTo`: the Euclidean distance between two
vectors, as computed by the three.js library. -/
noncomputable def Vec3.distanceTo (a b : Vec3) : ℝ :=
  Real.sqrt ((a.x - b.x) ^ 2 + (a.y - b.y) ^ 2 + (a.z - b.z) ^ 2)

/-- The JSON body `sendSample` posts to the `/sample` endpoint. -/
structure SamplePayload where
  x : ℝ
  y : ℝ
  z : ℝ
  distance : ℝ

/-- From `SimulationScene.tsx` (`sendSample`): the payload built from the
hit point and the laser head origin — coordinates of the hit point and
`distance = origin.distanceTo(hitPoint)`. -/
noncomputable def sendSample (hitPoint origin : Vec3) : SamplePayload :=
  { x := hitPoint.x
    y := hitPoint.y
    z := hitPoint.z
    distance := origin.distanceTo hitPoint }

/-- Coordinates of a `Vec3` as a point of Euclidean 3-space. -/
noncomputable def Vec3.toEuclidean (v : Vec3) : EuclideanSpace ℝ (Fin 3) :=
  ![v.x, v.y, v.z]

/-- C9: the `distance` field of every sample posted by the scan
simulation equals the Euclidean distance between the laser head origin
and the hit point, whose coordinates are sent as `x, y, z`. -/
theorem sendSample_distance_euclidean (hitPoint origin : Vec3) :
    (sendSample hitPoint origin).distance =
      dist origin.toEuclidean hitPoint.toEuclidean ∧
    (sendSample hitPoint origin).x = hitPoint.x ∧
    (sendSample hitPoint origin).y = hitPoint.y ∧
    (sendSample hitPoint origin).z = hitPoint.z := by
  refine ⟨?_, rfl, rfl, rfl⟩
  rw [EuclideanSpace.dist_eq]
  simp [sendSample, Vec3.distanceTo, Vec3.toEuclidean, Fin.sum_univ_three,
    Real.dist_eq, sq_abs]

/-! The serpentine raster scan of `SimulationScene.tsx`. -/

/-- From `SimulationScene.tsx`: the number of scan steps along X. -/
def stepsX : ℕ := 80

/-- From `SimulationScene.tsx`: the number of scan steps along Z. -/
def stepsZ : ℕ := 80

/-- From `SimulationScene.tsx`: `scanSizeX = tableSize * 0.8` with
`tableSize = 4`. -/
def scanSizeX : ℚ := 4 * (8 / 10)

/-- From `SimulationScene.tsx`: `scanSizeZ = tableSize * 0.8`. -/
def scanSizeZ : ℚ := 4 * (8 / 10)

/-- From `SimulationScene.tsx`: the X positions `xs` pushed by the setup
loop, `xs[i] = -scanSizeX/2 + (i/(stepsX-1)) * scanSizeX`. -/
def xs : List ℚ :=
  (List.range stepsX).map fun (i : ℕ) =>
    -scanSizeX / 2 + ((i : ℚ) / ((stepsX : ℚ) - 1)) * scanSizeX

/-- From `SimulationScene.tsx`: the Z positions `zs` pushed by the setup
loop. -/
def zs : List ℚ :=
  (List.range stepsZ).map fun (k : ℕ) =>
    -scanSizeZ / 2 + ((k : ℚ) / ((stepsZ : ℚ) - 1)) * scanSizeZ

/-- The mutable scan-head state of the interval callback: indices `ix`,
`iz` (JavaScript numbers, modelled as integers) and the sweep direction
flag `forward`. -/
structure ScanState where
  ix : ℤ
  iz : ℤ
  forward : Bool
deriving DecidableEq, Repr

/-- The initial scan state (`let ix = 0; let iz = 0; let forward = true`). -/
def initScanState : ScanState := ⟨0, 0, true⟩

/-- From `SimulationScene.tsx`: the serpentine index update executed at
the end of each inner step of the interval callback — advance `ix` in
the current direction, clamping and moving to the next Z row at either
end, and wrap to the origin when `iz` runs past the last row. -/
def serpentineStep (s : ScanState) : ScanState :=
  let s1 : ScanState :=
    if s.forward then
      if s.ix + 1 ≥ (stepsX : ℤ) then ⟨(stepsX : ℤ) - 1, s.iz + 1, false⟩
      else ⟨s.ix + 1, s.iz, true⟩
    else
      if s.ix - 1 < 0 then ⟨0, s.iz + 1, true⟩
      else ⟨s.ix - 1, s.iz, false⟩
  if s1.iz ≥ (stepsZ : ℤ) then ⟨0, 0, true⟩ else s1

/-- The in-bounds invariant for the position-array accesses `xs[ix]` and
`zs[iz]` at the top of each inner step. -/
def ScanIn (s : ScanState) : Prop :=
  0 ≤ s.ix ∧ s.ix < (stepsX : ℤ) ∧ 0 ≤ s.iz ∧ s.iz < (stepsZ : ℤ)

instance : DecidablePred ScanIn := fun s => by
  unfold ScanIn
  infer_instance

/-- From `SimulationScene.tsx`: `speedFactor = Math.max(0.25, Math.min(4,
headSpeed))`. -/
def clampSpeed (headSpeed : ℚ) : ℚ := max (1 / 4) (min 4 headSpeed)

/-- JavaScript `Math.round` on a non-negative argument: floor of `q + 1/2`. -/
def jsRound (q : ℚ) : ℤ := ⌊q + 1 / 2⌋

/-- From `SimulationScene.tsx`: `stepsPerTick = Math.max(1,
Math.round(speedFactor))` — the number of inner serpentine steps run by
one timer tick. -/
def stepsPerTick (headSpeed : ℚ) : ℕ := (max 1 (jsRound (clampSpeed headSpeed))).toNat

lemma serpentineStep_preserves (s : ScanState) (h : ScanIn s) :
    ScanIn (serpentineStep s) := by
  obtain ⟨h1, h2, h3, h4⟩ := h
  unfold serpentineStep ScanIn
  cases hf : s.forward <;> simp only [hf, if_true, if_false, Bool.false_eq_true] <;>
    split <;> split <;> simp_all <;> omega

lemma scanIn_iterate (n : ℕ) : ScanIn (serpentineStep^[n] initScanState) := by
  induction n with
  | zero =>
    simp only [Function.iterate_zero, id]
    decide
  | succ n ih =>
    rw [Function.iterate_succ_apply']
    exact serpentineStep_preserves _ ih

lemma xs_length : xs.length = stepsX := by
  rw [xs, List.length_map, List.length_range]

lemma zs_length : zs.length = stepsZ := by
  rw [zs, List.length_map, List.length_range]

lemma stepsPerTick_bounds (headSpeed : ℚ) :
    1 ≤ stepsPerTick headSpeed ∧ stepsPerTick headSpeed ≤ 4 := by
  have hlo : (1 / 4 : ℚ) ≤ clampSpeed headSpeed := le_max_left _ _
  have hhi : clampSpeed headSpeed ≤ 4 := by
    refine max_le (by norm_num) (min_le_left _ _)
  have hround : jsRound (clampSpeed headSpeed) ≤ 4 := by
    have : clampSpeed headSpeed + 1 / 2 ≤ 9 / 2 := by linarith
    have h2 : jsRound (clampSpeed headSpeed) ≤ ⌊(9 / 2 : ℚ)⌋ :=
      Int.floor_le_floor this
    have h3 : ⌊(9 / 2 : ℚ)⌋ = 4 := by norm_num [Int.floor_eq_iff]
    omega
  constructor
  · have : (1 : ℤ) ≤ max 1 (jsRound (clampSpeed headSpeed)) := le_max_left _ _
    unfold stepsPerTick
    omega
  · have : max 1 (jsRound (clampSpeed headSpeed)) ≤ 4 := by
      exact max_le (by norm_num) hround
    unfold stepsPerTick
    omega

/-- C10: the serpentine raster-scan update keeps the indices in bounds —
after any number of inner steps from the initial state the state
satisfies `0 ≤ ix < stepsX` and `0 ≤ iz < stepsZ`, every head-speed
setting yields `stepsPerTick` between 1 and 4 (so a tick only runs inner
steps, never skips the update), and at every in-bounds state the
accesses `xs[ix]` and `zs[iz]` are within the position arrays. -/
theorem serpentine_scan_in_bounds :
    (∀ n : ℕ, ScanIn (serpentineStep^[n] initScanState)) ∧
    (∀ headSpeed : ℚ, 1 ≤ stepsPerTick headSpeed ∧ stepsPerTick headSpeed ≤ 4) ∧
    (∀ s : ScanState, ScanIn s → s.ix.toNat < xs.length ∧ s.iz.toNat < zs.length) := by
  refine ⟨scanIn_iterate, stepsPerTick_bounds, ?_⟩
  intro s hs
  obtain ⟨h1, h2, h3, h4⟩ := hs
  rw [xs_length, zs_length]
  omega

theorem serpentine_scan_in_bounds_witness :
    ScanIn (serpentineStep^[250] initScanState) ∧
    (1 ≤ stepsPerTick 10 ∧ stepsPerTick 10 ≤ 4) ∧
    (serpentineStep^[250] initScanState).ix.toNat < xs.length :=
  ⟨serpentine_scan_in_bounds.1 250, serpentine_scan_in_bounds.2.1 10,
    (serpentine_scan_in_bounds.2.2 _ (serpentine_scan_in_bounds.1 250)).1⟩

/-! The segmentation engine, modelled from the spec (§4.2-§4.5): the
backend sources are not part of the checkout. -/

/-- Modelled from the spec: dot product of 3-vectors. -/
def dot3 (a b : ℚ × ℚ × ℚ) : ℚ := a.1 * b.1 + a.2.1 * b.2.1 + a.2.2 * b.2.2

/-- Modelled from the spec: componentwise difference of 3-vectors. -/
def sub3 (a b : ℚ × ℚ × ℚ) : ℚ × ℚ × ℚ := (a.1 - b.1, a.2.1 - b.2.1, a.2.2 - b.2.2)

/-- Modelled from the spec: cross product of 3-vectors. -/
def cross3 (a b : ℚ × ℚ × ℚ) : ℚ × ℚ × ℚ :=
  (a.2.1 * b.2.2 - a.2.2 * b.2.1, a.2.2 * b.1 - a.1 * b.2.2, a.1 * b.2.1 - a.2.1 * b.1)

/-- Modelled from the spec: squared Euclidean norm of a 3-vector. -/
def normSq3 (a : ℚ × ℚ × ℚ) : ℚ := dot3 a a

/-- Spatial coordinates of a stored point. -/
def Point.coords (p : Point) : ℚ × ℚ × ℚ := (p.x, p.y, p.z)

/-- Modelled from the spec: the fitted plane, a normal vector and scalar
offset with `n · p = d` for points `p` on the plane. -/
structure PlaneInfo where
  normal : ℚ × ℚ × ℚ
  d : ℚ
deriving DecidableEq, Repr

/-- Modelled from the spec: PlaneFitter configuration — the inlier
distance tolerance (squared), the minimum inlier support floor, the
injected random trial triples (the seedable randomness of the design
notes), and the least-squares refinement procedure applied to the best
candidate's inlier set. -/
structure FitConfig where
  epsPlaneSq : ℚ
  minInliers : ℕ
  trials : List (ℕ × ℕ × ℕ)
  refine : PlaneInfo → List Point → PlaneInfo

/-- Modelled from the spec: the candidate plane through the three sampled
points of one trial, or `none` when the triple is out of range or
(near-)collinear — a `DegenerateGeometryError` recovered by skipping the
trial. -/
def candidateOf (pts : List Point) (t : ℕ × ℕ × ℕ) : Option PlaneInfo :=
  match pts[t.1]?, pts[t.2.1]?, pts[t.2.2]? with
  | some p1, some p2, some p3 =>
    let n := cross3 (sub3 p2.coords p1.coords) (sub3 p3.coords p1.coords)
    if normSq3 n = 0 then none
    else some ⟨n, dot3 n p1.coords⟩
  | _, _, _ => none

/-- Modelled from the spec: a point is an inlier of a candidate plane
when its perpendicular distance is within the tolerance; stated on
squared quantities so the test is exact over ℚ. -/
def isInlier (eps2 : ℚ) (pl : PlaneInfo) (p : Point) : Bool :=
  decide ((dot3 pl.normal p.coords - pl.d) ^ 2 ≤ eps2 * normSq3 pl.normal)

/-- Modelled from the spec: the inliers of a candidate plane, with their
insertion indices. -/
def inliersOf (eps2 : ℚ) (pl : PlaneInfo) (pts : List Point) : List (ℕ × Point) :=
  pts.enum.filter fun ip => isInlier eps2 pl ip.2

/-- Modelled from the spec: the tie-break measure — summed squared
perpendicular distance of the inliers (normalized by the squared normal
length). -/
def residMeasure (eps2 : ℚ) (pl : PlaneInfo) (pts : List Point) : ℚ :=
  ((inliersOf eps2 pl pts).map fun ip => (dot3 pl.normal ip.2.coords - pl.d) ^ 2).sum
    / normSq3 pl.normal

/-- A scored trial outcome: candidate plane, inlier indices, tie-break
measure. -/
abbrev Candidate := PlaneInfo × List ℕ × ℚ

/-- Modelled from the spec: evaluate one consensus trial. -/
def evalTrial (cfg : FitConfig) (pts : List Point) (t : ℕ × ℕ × ℕ) : Option Candidate :=
  match candidateOf pts t with
  | none => none
  | some pl =>
    some (pl, (inliersOf cfg.epsPlaneSq pl pts).map Prod.fst,
      residMeasure cfg.epsPlaneSq pl pts)

/-- Modelled from the spec: keep the candidate with the larger inlier
count, ties broken by lower residual measure. -/
def pickBetter (b c : Candidate) : Candidate :=
  if b.2.1.length < c.2.1.length then c
  else if b.2.1.length = c.2.1.length ∧ c.2.2 < b.2.2 then c
  else b

/-- Modelled from the spec: fold one trial into the tracked best
candidate. -/
def stepTrial (cfg : FitConfig) (pts : List Point) (best : Option Candidate)
    (t : ℕ × ℕ × ℕ) : Option Candidate :=
  match evalTrial cfg pts t with
  | none => best
  | some c =>
    match best with
    | none => some c
    | some b => some (pickBetter b c)

/-- Modelled from the spec: the best candidate over all trials. -/
def bestCandidate (cfg : FitConfig) (pts : List Point) : Option Candidate :=
  cfg.trials.foldl (stepTrial cfg pts) none

/-- Modelled from the spec: PlaneFitter — `none` on fewer than 3 points
or when no trial reached the minimum inlier support, otherwise the
refined best candidate together with its inlier indices. -/
def planeFit (cfg : FitConfig) (pts : List Point) : Option (PlaneInfo × List ℕ) :=
  if pts.length < 3 then none
  else
    match bestCandidate cfg pts with
    | none => none
    | some b =>
      if b.2.1.length < cfg.minInliers then none
      else some (cfg.refine b.1 (b.2.1.filterMap fun i => pts[i]?), b.2.1)

/-! ObjectClusterer, modelled from the spec (§4.3). -/

/-- Modelled from the spec: ObjectClusterer configuration — squared
clustering radius and minimum component size. -/
structure ClusterConfig where
  epsClusterSq : ℚ
  minPts : ℕ
deriving DecidableEq, Repr

/-- Modelled from the spec: squared Euclidean distance between two
points. -/
def distSq (p q : Point) : ℚ :=
  (p.x - q.x) ^ 2 + (p.y - q.y) ^ 2 + (p.z - q.z) ^ 2

/-- Modelled from the spec: the neighbor relation — two points are
neighbors when their distance is below the clustering radius (squared
comparison, exact over ℚ). -/
def nearB (eps2 : ℚ) (p q : Point) : Bool := decide (distSq p q < eps2)

/-- Whether a point neighbors some member of a component. -/
def touches (eps2 : ℚ) (p : Point) (c : List (ℕ × Point)) : Bool :=
  c.any fun q => nearB eps2 p q.2

/-- Modelled from the spec: incremental connected components — a new
point merges every component it touches and forms a component with
them. -/
def insertPoint (eps2 : ℚ) (jp : ℕ × Point) (comps : List (List (ℕ × Point))) :
    List (List (ℕ × Point)) :=
  ((comps.filter fun c => touches eps2 jp.2 c).flatten ++ [jp]) ::
    (comps.filter fun c => !touches eps2 jp.2 c)

/-- Modelled from the spec: connected components of the proximity graph
over the residual sequence. -/
def buildComponents (eps2 : ℚ) (rs : List (ℕ × Point)) : List (List (ℕ × Point)) :=
  rs.foldl (fun comps jp => insertPoint eps2 jp comps) []

/-- The insertion index of a component's earliest member (the position of
its first member point in the residual sequence, which is ordered by
insertion index). -/
def minIdx (c : List (ℕ × Point)) : ℕ :=
  match c with
  | [] => 0
  | q :: qs => qs.foldl (fun m r => min m r.1) q.1

/-- Ordering of components by earliest member. -/
def compLE (a b : List (ℕ × Point)) : Prop := minIdx a ≤ minIdx b

instance : DecidableRel compLE := fun a b => Nat.decLe (minIdx a) (minIdx b)

instance : IsTotal (List (ℕ × Point)) compLE := ⟨fun a b => Nat.le_total (minIdx a) (minIdx b)⟩

instance : IsTrans (List (ℕ × Point)) compLE := ⟨fun _ _ _ h h' => Nat.le_trans h h'⟩

/-- Modelled from the spec: ObjectClusterer — connected components of
the residual, small components discarded as noise, survivors ordered by
the position of their first member in the residual sequence (labels are
then assigned contiguously from 1 in that order). -/
def clusterComponents (ccfg : ClusterConfig) (rs : List (ℕ × Point)) :
    List (List (ℕ × Point)) :=
  List.insertionSort compLE
    ((buildComponents ccfg.epsClusterSq rs).filter fun c => decide (ccfg.minPts ≤ c.length))

/-- Modelled from the spec: the label of insertion index `i` — one plus
the position of the surviving component containing `i`, or 0 (plane /
noise / unclustered). -/
def labelOf (comps : List (List (ℕ × Point))) (i : ℕ) : ℕ :=
  match comps with
  | [] => 0
  | c :: cs =>
    if c.any fun q => q.1 = i then 1
    else
      match labelOf cs i with
      | 0 => 0
      | k => k + 1

/-- Modelled from the spec: BoundingBoxComputer — componentwise minimum
over a component's member coordinates. -/
def bboxMin (c : List (ℕ × Point)) : ℚ × ℚ × ℚ :=
  match c with
  | [] => (0, 0, 0)
  | q :: qs =>
    qs.foldl (fun m r => (min m.1 r.2.x, min m.2.1 r.2.y, min m.2.2 r.2.z))
      (q.2.x, q.2.y, q.2.z)

/-- Modelled from the spec: BoundingBoxComputer — componentwise maximum
over a component's member coordinates. -/
def bboxMax (c : List (ℕ × Point)) : ℚ × ℚ × ℚ :=
  match c with
  | [] => (0, 0, 0)
  | q :: qs =>
    qs.foldl (fun m r => (max m.1 r.2.x, max m.2.1 r.2.y, max m.2.2 r.2.z))
      (q.2.x, q.2.y, q.2.z)

/-- Modelled from the spec: one object of the segmentation response. -/
structure ObjectInfo where
  label : ℕ
  num_points : ℕ
  bbox_min : ℚ × ℚ × ℚ
  bbox_max : ℚ × ℚ × ℚ
deriving DecidableEq, Repr

/-- Modelled from the spec: the object list — labels 1..K assigned
contiguously to the ordered surviving components, each with its point
count and freshly computed bounding box. -/
def mkObjects (sorted : List (List (ℕ × Point))) : List ObjectInfo :=
  sorted.enum.map fun kc =>
    { label := kc.1 + 1
      num_points := kc.2.length
      bbox_min := bboxMin kc.2
      bbox_max := bboxMax kc.2 }

/-- Modelled from the spec: one labeled point of the segmentation
response. -/
structure SegPoint where
  x : ℚ
  y : ℚ
  z : ℚ
  distance : ℚ
  label : ℕ
deriving DecidableEq, Repr

/-- Modelled from the spec: the wire-level segmentation response. -/
structure SegResponse where
  units : String
  points : List SegPoint
  objects : List ObjectInfo
  plane : Option PlaneInfo
deriving DecidableEq, Repr

/-- Modelled from the spec: the residual — the enumerated cloud minus
the plane inliers, in insertion order. -/
def residualOf (pts : List Point) (inliers : List ℕ) : List (ℕ × Point) :=
  pts.enum.filter fun ip => decide (ip.1 ∉ inliers)

/-- Modelled from the spec: the labeled response point of one enumerated
cloud point, given the ordered surviving components. -/
def segPointOf (sorted : List (List (ℕ × Point))) (ip : ℕ × Point) : SegPoint :=
  ⟨ip.2.x, ip.2.y, ip.2.z, ip.2.distance, labelOf sorted ip.1⟩

/-- Modelled from the spec: the full segmentation pipeline — snapshot,
plane fit, residual clustering, bounding boxes, serialization.  A failed
plane fit degrades to "no plane, no objects" with every point labeled
0. -/
def segment (fcfg : FitConfig) (ccfg : ClusterConfig) (c : PointCloud) : SegResponse :=
  match planeFit fcfg c.points with
  | none =>
    { units := c.units
      points := c.points.map fun p => ⟨p.x, p.y, p.z, p.distance, 0⟩
      objects := []
      plane := none }
  | some (pl, inliers) =>
    let sorted := clusterComponents ccfg (residualOf c.points inliers)
    { units := c.units
      points := c.points.enum.map (segPointOf sorted)
      objects := mkObjects sorted
      plane := some pl }

lemma pickBetter_left_le (b c : Candidate) :
    b.2.1.length ≤ (pickBetter b c).2.1.length := by
  unfold pickBetter
  split
  · omega
  · split <;> omega

lemma pickBetter_right_le (b c : Candidate) :
    c.2.1.length ≤ (pickBetter b c).2.1.length := by
  unfold pickBetter
  split
  · omega
  · rename_i h1
    split
    · omega
    · omega

lemma pickBetter_cases (b c : Candidate) :
    pickBetter b c = b ∨ pickBetter b c = c := by
  unfold pickBetter
  split
  · right; rfl
  · split
    · right; rfl
    · left; rfl

lemma stepTrial_none_iff (cfg : FitConfig) (pts : List Point)
    (best : Option Candidate) (t : ℕ × ℕ × ℕ) :
    stepTrial cfg pts best t = none ↔ best = none ∧ evalTrial cfg pts t = none := by
  unfold stepTrial
  cases h : evalTrial cfg pts t with
  | none => simp
  | some c => cases best <;> simp

lemma foldTrials_none_iff (cfg : FitConfig) (pts : List Point)
    (ts : List (ℕ × ℕ × ℕ)) (acc : Option Candidate) :
    ts.foldl (stepTrial cfg pts) acc = none ↔
      acc = none ∧ ∀ t ∈ ts, evalTrial cfg pts t = none := by
  induction ts generalizing acc with
  | nil => simp
  | cons t ts ih =>
    simp only [List.foldl_cons, ih, stepTrial_none_iff, List.mem_cons]
    constructor
    · rintro ⟨⟨hacc, ht⟩, hrest⟩
      exact ⟨hacc, fun u hu => hu.elim (fun h => h ▸ ht) (hrest u)⟩
    · rintro ⟨hacc, hall⟩
      exact ⟨⟨hacc, hall t (Or.inl rfl)⟩, fun u hu => hall u (Or.inr hu)⟩

lemma foldTrials_mono (cfg : FitConfig) (pts : List Point) (ts : List (ℕ × ℕ × ℕ)) :
    ∀ (a b : Candidate), ts.foldl (stepTrial cfg pts) (some a) = some b →
      a.2.1.length ≤ b.2.1.length := by
  induction ts with
  | nil =>
    intro a b h
    simp only [List.foldl_nil, Option.some_inj] at h
    rw [h]
  | cons t ts ih =>
    intro a b h
    simp only [List.foldl_cons] at h
    cases he : evalTrial cfg pts t with
    | none =>
      rw [stepTrial, he] at h
      exact ih a b h
    | some c =>
      rw [stepTrial, he] at h
      exact le_trans (pickBetter_left_le a c) (ih _ b h)

lemma foldTrials_dominates (cfg : FitConfig) (pts : List Point) (ts : List (ℕ × ℕ × ℕ)) :
    ∀ (acc : Option Candidate) (b : Candidate),
      ts.foldl (stepTrial cfg pts) acc = some b →
      ∀ t ∈ ts, ∀ c : Candidate, evalTrial cfg pts t = some c →
        c.2.1.length ≤ b.2.1.length := by
  induction ts with
  | nil => intro acc b _ t ht; simp at ht
  | cons t ts ih =>
    intro acc b hfold u hu c hc
    simp only [List.foldl_cons] at hfold
    rcases List.mem_cons.mp hu with rfl | hu
    · have hacc : ∃ a : Candidate,
          stepTrial cfg pts acc u = some a ∧ c.2.1.length ≤ a.2.1.length := by
        rw [stepTrial, hc]
        cases acc with
        | none => exact ⟨c, rfl, le_refl _⟩
        | some a => exact ⟨pickBetter a c, rfl, pickBetter_right_le a c⟩
      obtain ⟨a, ha, hle⟩ := hacc
      rw [ha] at hfold
      exact le_trans hle (foldTrials_mono cfg pts ts a b hfold)
    · exact ih (stepTrial cfg pts acc t) b hfold u hu c hc

lemma foldTrials_result_mem (cfg : FitConfig) (pts : List Point) (ts : List (ℕ × ℕ × ℕ)) :
    ∀ (acc : Option Candidate) (b : Candidate),
      ts.foldl (stepTrial cfg pts) acc = some b →
      acc = some b ∨ ∃ t ∈ ts, evalTrial cfg pts t = some b := by
  induction ts with
  | nil =>
    intro acc b h
    simp only [List.foldl_nil] at h
    exact Or.inl h
  | cons t ts ih =>
    intro acc b h
    simp only [List.foldl_cons] at h
    rcases ih (stepTrial cfg pts acc t) b h with hstep | ⟨u, hu, hc⟩
    · cases he : evalTrial cfg pts t with
      | none =>
        rw [stepTrial, he] at hstep
        exact Or.inl hstep
      | some c =>
        rw [stepTrial, he] at hstep
        cases acc with
        | none =>
          simp only [Option.some_inj] at hstep
          exact Or.inr ⟨t, by simp, hstep ▸ he⟩
        | some a =>
          simp only [Option.some_inj] at hstep
          rcases pickBetter_cases a c with hpc | hpc
          · exact Or.inl (by rw [show a = b from hpc ▸ hstep])
          · exact Or.inr ⟨t, by simp, by rw [he, show c = b from hpc ▸ hstep]⟩
    · exact Or.inr ⟨u, by simp [hu], hc⟩

lemma planeFit_none_iff (cfg : FitConfig) (pts : List Point) :
    planeFit cfg pts = none ↔
      (pts.length < 3 ∨ ∀ t ∈ cfg.trials, ∀ c : Candidate,
        evalTrial cfg pts t = some c → c.2.1.length < cfg.minInliers) := by
  by_cases hlen : pts.length < 3
  · simp [planeFit, hlen]
  · cases hb : bestCandidate cfg pts with
    | none =>
      have hall := (foldTrials_none_iff cfg pts cfg.trials none).mp hb
      have hpf : planeFit cfg pts = none := by simp [planeFit, hlen, hb]
      rw [hpf]
      simp only [true_iff]
      refine Or.inr fun t ht c hc => absurd hc ?_
      rw [hall.2 t ht]
      simp
    | some b =>
      by_cases hmin : b.2.1.length < cfg.minInliers
      · have hpf : planeFit cfg pts = none := by simp [planeFit, hlen, hb, hmin]
        rw [hpf]
        simp only [true_iff]
        exact Or.inr fun t ht c hc =>
          lt_of_le_of_lt (foldTrials_dominates cfg pts cfg.trials none b hb t ht c hc) hmin
      · have hpf : planeFit cfg pts =
            some (cfg.refine b.1 (b.2.1.filterMap fun i => pts[i]?), b.2.1) := by
          simp [planeFit, hlen, hb, hmin]
        rw [hpf]
        constructor
        · intro habs
          simp at habs
        · intro hcond
          exfalso
          rcases hcond with h3 | hall
          · exact hlen h3
          · rcases foldTrials_result_mem cfg pts cfg.trials none b hb with habs | ⟨t, ht, hc⟩
            · simp at habs
            · exact hmin (hall t ht b hc)

lemma segment_points_length (fcfg : FitConfig) (ccfg : ClusterConfig) (c : PointCloud) :
    (segment fcfg ccfg c).points.length = c.size := by
  unfold segment
  cases planeFit fcfg c.points with
  | none => simp [PointCloud.size]
  | some pr =>
    cases pr with
    | mk pl inl => simp [PointCloud.size, List.enum_length]

lemma segment_units (fcfg : FitConfig) (ccfg : ClusterConfig) (c : PointCloud) :
    (segment fcfg ccfg c).units = c.units := by
  unfold segment
  cases planeFit fcfg c.points with
  | none => rfl
  | some pr => cases pr with | mk pl inl => rfl

/-- C2: the response `plane` is `null` exactly when PlaneFitter returned
no plane; PlaneFitter returns no plane exactly when the cloud has fewer
than 3 points or no trial candidate reached the minimum inlier support;
and the condition is surfaced inside a structurally successful response
(full labeled point list), never as a request failure. -/
theorem segmentation_plane_null (fcfg : FitConfig) (ccfg : ClusterConfig) (c : PointCloud) :
    ((segment fcfg ccfg c).plane = none ↔ planeFit fcfg c.points = none) ∧
    (planeFit fcfg c.points = none ↔
      (c.points.length < 3 ∨ ∀ t ∈ fcfg.trials, ∀ cand : Candidate,
        evalTrial fcfg c.points t = some cand → cand.2.1.length < fcfg.minInliers)) ∧
    (segment fcfg ccfg c).points.length = c.size := by
  refine ⟨?_, planeFit_none_iff fcfg c.points, segment_points_length fcfg ccfg c⟩
  unfold segment
  cases planeFit fcfg c.points with
  | none => simp
  | some pr => cases pr with | mk pl inl => simp

/-! The service-level operation model used for the idempotence claim. -/

/-- Modelled from the spec: the service requests touching the cloud —
ingestion (mutating) and the read-only export / segmentation requests,
which operate on a snapshot and leave the store unchanged. -/
inductive SOp where
  | ingest (op : Op)
  | exportJsonOp
  | exportPlyOp
  | segmentsOp
deriving DecidableEq, Repr

/-- Whether a service operation mutates the cloud. -/
def SOp.mutates : SOp → Bool
  | .ingest _ => true
  | _ => false

/-- Modelled from the spec: the store-state transition of one service
request; reads are non-destructive. -/
def applySOp (c : PointCloud) : SOp → PointCloud
  | .ingest op => stepOp c op
  | .exportJsonOp => c
  | .exportPlyOp => c
  | .segmentsOp => c

/-- Modelled from the spec: running a sequence of service requests. -/
def runSOps (c : PointCloud) (ops : List SOp) : PointCloud :=
  ops.foldl applySOp c

/-- C6: segmentation is idempotent on a static cloud — with the trial
randomness injected through the configuration (as the spec's design
notes require) and no mutating request in between, a second segmentation
call sees the identical store and yields the identical plane and label
assignment. -/
theorem segmentation_idempotent (fcfg : FitConfig) (ccfg : ClusterConfig)
    (c : PointCloud) (ops : List SOp) (h : ∀ op ∈ ops, op.mutates = false) :
    runSOps c ops = c ∧
    segment fcfg ccfg (runSOps c ops) = segment fcfg ccfg c := by
  have hrun : runSOps c ops = c := by
    induction ops generalizing c with
    | nil => rfl
    | cons op ops ih =>
      have hop : applySOp c op = c := by
        cases op with
        | ingest o =>
          have hmut := h (SOp.ingest o) (by simp)
          simp [SOp.mutates] at hmut
        | exportJsonOp => rfl
        | exportPlyOp => rfl
        | segmentsOp => rfl
      simp only [runSOps, List.foldl_cons, hop]
      exact ih c fun op hop => h op (by simp [hop])
  exact ⟨hrun, by rw [hrun]⟩

/-- A concrete PlaneFitter configuration used by witnesses: tolerance
1/100, support floor 3, one injected trial, identity refinement. -/
def cfg0 : FitConfig := ⟨1 / 100, 3, [(0, 1, 2)], fun pl _ => pl⟩

/-- A concrete ObjectClusterer configuration used by witnesses. -/
def ccfg0 : ClusterConfig := ⟨1 / 25, 1⟩

theorem segmentation_idempotent_witness :
    runSOps cloudEmpty [SOp.segmentsOp, SOp.exportJsonOp] = cloudEmpty ∧
    segment cfg0 ccfg0 (runSOps cloudEmpty [SOp.segmentsOp, SOp.exportJsonOp]) =
      segment cfg0 ccfg0 cloudEmpty :=
  segmentation_idempotent cfg0 ccfg0 cloudEmpty [SOp.segmentsOp, SOp.exportJsonOp]
    (by decide)

/-- C8: segmentation of an empty cloud succeeds and returns exactly
`points: []`, `objects: []`, `plane: null`; and for every well-formed
cloud segmentation and the exports are total, returning a full labeled
point list (resp. full record list) rather than failing. -/
theorem segmentation_empty_degrades (fcfg : FitConfig) (ccfg : ClusterConfig)
    (u : String) (c : PointCloud) :
    segment fcfg ccfg ⟨u, []⟩ = ⟨u, [], [], none⟩ ∧
    (segment fcfg ccfg c).points.length = c.size ∧
    (segment fcfg ccfg c).units = c.units ∧
    PointCloud.exportJSON ⟨u, []⟩ = ⟨u, []⟩ ∧
    (PointCloud.exportJSON c).points.length = c.size ∧
    PointCloud.exportPLY ⟨u, []⟩ = ⟨0, []⟩ ∧
    (PointCloud.exportPLY c).records.length = c.size := by
  refine ⟨?_, segment_points_length fcfg ccfg c, segment_units fcfg ccfg c,
    rfl, by simp [PointCloud.exportJSON, PointCloud.size], rfl,
    by simp [PointCloud.exportPLY, PointCloud.size]⟩
  have hfit : planeFit fcfg ([] : List Point) = none := by
    unfold planeFit
    simp
  unfold segment
  simp [hfit]

/-! Invariants of the connected-component construction. -/

/-- The insertion indices of a component's members. -/
def fsts (c : List (ℕ × Point)) : List ℕ := c.map Prod.fst

lemma insertPoint_flatten_perm (eps2 : ℚ) (jp : ℕ × Point)
    (comps : List (List (ℕ × Point))) :
    (insertPoint eps2 jp comps).flatten.Perm (comps.flatten ++ [jp]) := by
  unfold insertPoint
  set t := comps.filter fun c => touches eps2 jp.2 c with ht
  set u := comps.filter fun c => !touches eps2 jp.2 c with hu
  have hflat : ((t.flatten ++ [jp]) :: u).flatten = (t.flatten ++ [jp]) ++ u.flatten := by
    simp
  rw [hflat]
  have h1 : (t.flatten ++ [jp]) ++ u.flatten = t.flatten ++ ([jp] ++ u.flatten) := by
    simp
  rw [h1]
  refine List.Perm.trans (List.Perm.append_left t.flatten (List.perm_append_comm)) ?_
  have h2 : t.flatten ++ (u.flatten ++ [jp]) = (t.flatten ++ u.flatten) ++ [jp] := by
    simp
  rw [h2]
  refine List.Perm.append_right [jp] ?_
  have h3 : (t ++ u).flatten = t.flatten ++ u.flatten := List.flatten_append t u
  rw [← h3]
  exact List.Perm.flatten (List.filter_append_perm _ comps)

lemma foldInsert_flatten_perm (eps2 : ℚ) (rs : List (ℕ × Point)) :
    ∀ acc : List (List (ℕ × Point)),
      ((rs.foldl (fun comps jp => insertPoint eps2 jp comps) acc).flatten).Perm
        (acc.flatten ++ rs) := by
  induction rs with
  | nil => intro acc; simp
  | cons jp rs ih =>
    intro acc
    simp only [List.foldl_cons]
    refine List.Perm.trans (ih (insertPoint eps2 jp acc)) ?_
    have h1 := List.Perm.append_right rs (insertPoint_flatten_perm eps2 jp acc)
    refine List.Perm.trans h1 ?_
    have h2 : (acc.flatten ++ [jp]) ++ rs = acc.flatten ++ (jp :: rs) := by simp
    rw [h2]

lemma buildComponents_flatten_perm (eps2 : ℚ) (rs : List (ℕ × Point)) :
    (buildComponents eps2 rs).flatten.Perm rs := by
  have h := foldInsert_flatten_perm eps2 rs []
  simpa [buildComponents] using h

lemma foldInsert_ne_nil (eps2 : ℚ) (rs : List (ℕ × Point)) :
    ∀ acc : List (List (ℕ × Point)), (∀ c ∈ acc, c ≠ []) →
      ∀ c ∈ rs.foldl (fun comps jp => insertPoint eps2 jp comps) acc, c ≠ [] := by
  induction rs with
  | nil => intro acc hacc; simpa using hacc
  | cons jp rs ih =>
    intro acc hacc
    simp only [List.foldl_cons]
    refine ih (insertPoint eps2 jp acc) ?_
    intro c hc
    unfold insertPoint at hc
    rcases List.mem_cons.mp hc with rfl | hc
    · simp
    · exact hacc c (List.mem_of_mem_filter hc)

lemma buildComponents_ne_nil (eps2 : ℚ) (rs : List (ℕ × Point)) :
    ∀ c ∈ buildComponents eps2 rs, c ≠ [] :=
  foldInsert_ne_nil eps2 rs [] (by simp)

lemma foldl_min_le_init (qs : List (ℕ × Point)) :
    ∀ a : ℕ, qs.foldl (fun m r => min m r.1) a ≤ a := by
  induction qs with
  | nil => intro a; simp
  | cons q qs ih =>
    intro a
    simp only [List.foldl_cons]
    exact le_trans (ih (min a q.1)) (min_le_left _ _)

lemma foldl_min_le_mem (qs : List (ℕ × Point)) :
    ∀ (a : ℕ) (r : ℕ × Point), r ∈ qs → qs.foldl (fun m s => min m s.1) a ≤ r.1 := by
  induction qs with
  | nil => intro a r hr; simp at hr
  | cons q qs ih =>
    intro a r hr
    simp only [List.foldl_cons]
    rcases List.mem_cons.mp hr with rfl | hr
    · exact le_trans (foldl_min_le_init qs (min a r.1)) (min_le_right _ _)
    · exact ih (min a q.1) r hr

lemma foldl_min_choice (qs : List (ℕ × Point)) :
    ∀ a : ℕ, qs.foldl (fun m r => min m r.1) a = a ∨
      ∃ r ∈ qs, qs.foldl (fun m s => min m s.1) a = r.1 := by
  induction qs with
  | nil => intro a; exact Or.inl rfl
  | cons q qs ih =>
    intro a
    simp only [List.foldl_cons]
    rcases ih (min a q.1) with h | ⟨r, hr, h⟩
    · rcases min_cases a q.1 with ⟨hmin, _⟩ | ⟨hmin, _⟩
      · exact Or.inl (by rw [h, hmin])
      · exact Or.inr ⟨q, by simp, by rw [h, hmin]⟩
    · exact Or.inr ⟨r, by simp [hr], h⟩

lemma minIdx_mem {c : List (ℕ × Point)} (h : c ≠ []) : minIdx c ∈ fsts c := by
  cases c with
  | nil => exact absurd rfl h
  | cons q qs =>
    show qs.foldl (fun m r => min m r.1) q.1 ∈ (q :: qs).map Prod.fst
    rcases foldl_min_choice qs q.1 with hc | ⟨r, hr, hc⟩
    · rw [hc]; simp
    · rw [hc]
      simp only [List.map_cons, List.mem_cons]
      exact Or.inr (List.mem_map_of_mem Prod.fst hr)

lemma minIdx_le {c : List (ℕ × Point)} {q : ℕ × Point} (hq : q ∈ c) :
    minIdx c ≤ q.1 := by
  cases c with
  | nil => simp at hq
  | cons r rs =>
    show rs.foldl (fun m s => min m s.1) r.1 ≤ q.1
    rcases List.mem_cons.mp hq with rfl | hq
    · exact foldl_min_le_init rs q.1
    · exact foldl_min_le_mem rs r.1 q hq

lemma buildComponents_nodup_disjoint (eps2 : ℚ) (rs : List (ℕ × Point))
    (hnd : (rs.map Prod.fst).Nodup) :
    (∀ c ∈ buildComponents eps2 rs, (fsts c).Nodup) ∧
      List.Pairwise (fun a b => (fsts a).Disjoint (fsts b)) (buildComponents eps2 rs) := by
  have hperm : ((buildComponents eps2 rs).flatten.map Prod.fst).Perm (rs.map Prod.fst) :=
    List.Perm.map Prod.fst (buildComponents_flatten_perm eps2 rs)
  have hflat : (buildComponents eps2 rs).flatten.map Prod.fst =
      ((buildComponents eps2 rs).map fsts).flatten := by
    simp only [List.map_flatten]
    rfl
  have hnodupFlat : (((buildComponents eps2 rs).map fsts).flatten).Nodup := by
    rw [← hflat]
    exact hperm.nodup_iff.mpr hnd
  have h := List.nodup_flatten.mp hnodupFlat
  constructor
  · intro c hc
    exact h.1 (fsts c) (List.mem_map_of_mem fsts hc)
  · exact List.pairwise_map.mp h.2

lemma clusterComponents_mem {ccfg : ClusterConfig} {rs : List (ℕ × Point)}
    {c : List (ℕ × Point)} (hc : c ∈ clusterComponents ccfg rs) :
    c ∈ buildComponents ccfg.epsClusterSq rs := by
  unfold clusterComponents at hc
  have hmem := (List.perm_insertionSort compLE _).mem_iff.mp hc
  exact List.mem_of_mem_filter hmem

lemma clusterComponents_invariants (ccfg : ClusterConfig) (rs : List (ℕ × Point))
    (hnd : (rs.map Prod.fst).Nodup) :
    List.Pairwise (fun a b => (fsts a).Disjoint (fsts b)) (clusterComponents ccfg rs) ∧
    (∀ c ∈ clusterComponents ccfg rs, (fsts c).Nodup) ∧
    (∀ c ∈ clusterComponents ccfg rs, c ≠ []) ∧
    (∀ c ∈ clusterComponents ccfg rs, ∀ q ∈ c, q ∈ rs) := by
  obtain ⟨hnodupEach, hdisj⟩ := buildComponents_nodup_disjoint ccfg.epsClusterSq rs hnd
  refine ⟨?_, ?_, ?_, ?_⟩
  · have hfilter := List.Pairwise.filter
      (fun c => decide (ccfg.minPts ≤ c.length)) hdisj
    exact ((List.perm_insertionSort compLE _).pairwise_iff
      (fun h => List.Disjoint.symm h)).mpr hfilter
  · intro c hc
    exact hnodupEach c (clusterComponents_mem hc)
  · intro c hc
    exact buildComponents_ne_nil ccfg.epsClusterSq rs c (clusterComponents_mem hc)
  · intro c hc q hq
    have hflat : q ∈ (buildComponents ccfg.epsClusterSq rs).flatten :=
      List.mem_flatten.mpr ⟨c, clusterComponents_mem hc, hq⟩
    exact (buildComponents_flatten_perm ccfg.epsClusterSq rs).mem_iff.mp hflat

/-! Characterization of the label assignment. -/

lemma any_fst_iff (c : List (ℕ × Point)) (i : ℕ) :
    (c.any fun q => decide (q.1 = i)) = true ↔ i ∈ fsts c := by
  simp [fsts, List.any_eq_true, List.mem_map]

lemma labelOf_cons_mem {c : List (ℕ × Point)} (cs : List (List (ℕ × Point)))
    {i : ℕ} (h : i ∈ fsts c) : labelOf (c :: cs) i = 1 := by
  have hany := (any_fst_iff c i).mpr h
  simp [labelOf, hany]

lemma labelOf_cons_not_mem {c : List (ℕ × Point)} (cs : List (List (ℕ × Point)))
    {i : ℕ} (h : i ∉ fsts c) :
    labelOf (c :: cs) i = if labelOf cs i = 0 then 0 else labelOf cs i + 1 := by
  have hany : (c.any fun q => decide (q.1 = i)) = false := by
    rcases Bool.eq_false_or_eq_true (c.any fun q => decide (q.1 = i)) with ht | hf
    · exact absurd ((any_fst_iff c i).mp ht) h
    · exact hf
  cases hl : labelOf cs i with
  | zero => simp [labelOf, hany, hl]
  | succ m => simp [labelOf, hany, hl]

lemma labelOf_le (comps : List (List (ℕ × Point))) (i : ℕ) :
    labelOf comps i ≤ comps.length := by
  induction comps with
  | nil => simp [labelOf]
  | cons c cs ih =>
    by_cases h : i ∈ fsts c
    · rw [labelOf_cons_mem cs h]
      simp
    · rw [labelOf_cons_not_mem cs h]
      split <;> simp only [List.length_cons] <;> omega

lemma labelOf_eq_succ_iff :
    ∀ (comps : List (List (ℕ × Point))),
      List.Pairwise (fun a b => (fsts a).Disjoint (fsts b)) comps →
      ∀ (k : ℕ) (hk : k < comps.length) (i : ℕ),
        (labelOf comps i = k + 1 ↔ i ∈ fsts (comps.get ⟨k, hk⟩)) := by
  intro comps
  induction comps with
  | nil => intro _ k hk i; simp at hk
  | cons c cs ih =>
    intro hdisj k hk i
    obtain ⟨hdc, hdcs⟩ := List.pairwise_cons.mp hdisj
    cases k with
    | zero =>
      simp only [List.get]
      by_cases hin : i ∈ fsts c
      · rw [labelOf_cons_mem cs hin]
        simp [hin]
      · rw [labelOf_cons_not_mem cs hin]
        constructor
        · intro habs
          split at habs <;> omega
        · intro habs
          exact absurd habs hin
    | succ k =>
      have hk' : k < cs.length := by
        simp only [List.length_cons] at hk
        omega
      have hget : (c :: cs).get ⟨k + 1, hk⟩ = cs.get ⟨k, hk'⟩ := List.get_cons_succ
      rw [hget]
      have hiH := ih hdcs k hk' i
      by_cases hin : i ∈ fsts c
      · rw [labelOf_cons_mem cs hin]
        constructor
        · intro habs; omega
        · intro hmem
          exact absurd hmem ((hdc _ (List.get_mem cs k hk')) hin)
      · rw [labelOf_cons_not_mem cs hin]
        constructor
        · intro heq
          split at heq
          · omega
          · exact hiH.mp (by omega)
        · intro hmem
          have hlab := hiH.mpr hmem
          rw [hlab]
          simp

/-! Counting points by label. -/

lemma countP_range_of_nodup (n : ℕ) (S : List ℕ) (hnd : S.Nodup)
    (hsub : ∀ x ∈ S, x < n) :
    (List.range n).countP (fun i => decide (i ∈ S)) = S.length := by
  rw [List.countP_eq_length_filter]
  have hfn : ((List.range n).filter fun i => decide (i ∈ S)).Nodup :=
    (List.nodup_range n).filter _
  have hset : ((List.range n).filter fun i => decide (i ∈ S)).toFinset = S.toFinset := by
    ext x
    simp only [List.mem_toFinset, List.mem_filter, List.mem_range, decide_eq_true_eq]
    exact ⟨fun h => h.2, fun h => ⟨hsub x h, h⟩⟩
  have h1 := List.toFinset_card_of_nodup hfn
  have h2 := List.toFinset_card_of_nodup hnd
  rw [hset] at h1
  omega

lemma countP_label_points (pts : List Point) (sorted : List (List (ℕ × Point)))
    (hdisj : List.Pairwise (fun a b => (fsts a).Disjoint (fsts b)) sorted)
    (hnodup : ∀ cp ∈ sorted, (fsts cp).Nodup)
    (hsub : ∀ cp ∈ sorted, ∀ j ∈ fsts cp, j < pts.length)
    (k : ℕ) (hk : k < sorted.length) :
    ((pts.enum.map (segPointOf sorted)).countP fun sp => decide (sp.label = k + 1)) =
      (sorted.get ⟨k, hk⟩).length := by
  rw [List.countP_map]
  have hcomp :
      ((fun sp : SegPoint => decide (sp.label = k + 1)) ∘ segPointOf sorted) =
        ((fun j => decide (labelOf sorted j = k + 1)) ∘ (Prod.fst : ℕ × Point → ℕ)) := rfl
  rw [hcomp, ← List.countP_map, List.enum_map_fst]
  have hcong : (List.range pts.length).countP (fun j => decide (labelOf sorted j = k + 1)) =
      (List.range pts.length).countP fun j => decide (j ∈ fsts (sorted.get ⟨k, hk⟩)) := by
    refine List.countP_congr fun j _ => ?_
    simp only [decide_eq_true_eq]
    exact labelOf_eq_succ_iff sorted hdisj k hk j
  rw [hcong]
  have hlen := countP_range_of_nodup pts.length (fsts (sorted.get ⟨k, hk⟩))
    (hnodup _ (List.get_mem sorted k hk)) (hsub _ (List.get_mem sorted k hk))
  rw [hlen]
  simp [fsts]

lemma list_sum_map_add {α : Type} (l : List α) (g h : α → ℕ) :
    (l.map fun a => g a + h a).sum = (l.map g).sum + (l.map h).sum := by
  induction l with
  | nil => simp
  | cons a l ih =>
    simp only [List.map_cons, List.sum_cons, ih]
    omega

lemma sum_indicator_lt (N m : ℕ) (hm : m < N) :
    ((List.range N).map fun k => if m = k then 1 else 0).sum = 1 := by
  induction N with
  | zero => omega
  | succ N ih =>
    rw [List.range_succ]
    simp only [List.map_append, List.sum_append, List.map_cons, List.map_nil,
      List.sum_cons, List.sum_nil]
    by_cases hmN : m = N
    · subst hmN
      have hz : ((List.range m).map fun k => if m = k then 1 else 0).sum = 0 := by
        have : ∀ k ∈ List.range m, (if m = k then 1 else 0) = 0 := by
          intro k hk
          have := List.mem_range.mp hk
          simp only [ite_eq_right_iff]
          omega
        rw [List.map_congr_left this]
        simp
      rw [hz]
      simp
    · have hm' : m < N := by omega
      rw [ih hm']
      simp [hmN]

lemma countP_label_partition {α : Type} (l : List α) (f : α → ℕ) (N : ℕ)
    (h : ∀ a ∈ l, f a ≤ N) :
    l.countP (fun a => decide (f a = 0)) +
      ((List.range N).map fun k => l.countP fun a => decide (f a = k + 1)).sum =
      l.length := by
  induction l with
  | nil => simp
  | cons a l ih =>
    have ha := h a (by simp)
    have hl : ∀ b ∈ l, f b ≤ N := fun b hb => h b (by simp [hb])
    have ihl := ih hl
    simp only [List.countP_cons, List.length_cons]
    rw [list_sum_map_add (List.range N) (fun k => l.countP fun b => decide (f b = k + 1))
      (fun k => if (decide (f a = k + 1)) = true then 1 else 0)]
    cases hfa : f a with
    | zero =>
      have hz : ((List.range N).map fun k =>
          if (decide ((0 : ℕ) = k + 1)) = true then 1 else 0).sum = 0 := by
        have hall : ∀ k ∈ List.range N,
            (if (decide ((0 : ℕ) = k + 1)) = true then 1 else 0) = 0 := by
          intro k _
          simp
        rw [List.map_congr_left hall]
        simp
      rw [hz]
      have hone : (if (decide ((0 : ℕ) = 0)) = true then 1 else 0) = 1 := by norm_num
      rw [hone]
      omega
    | succ m =>
      have hone : ((List.range N).map fun k =>
          if (decide (m + 1 = k + 1)) = true then 1 else 0).sum = 1 := by
        have heach : ∀ k ∈ List.range N,
            (if (decide (m + 1 = k + 1)) = true then 1 else 0) =
              if m = k then 1 else 0 := by
          intro k _
          by_cases hmk : m = k
          · simp [hmk]
          · have hne : ¬ (m + 1 = k + 1) := by omega
            simp [hmk, hne]
        rw [List.map_congr_left heach]
        exact sum_indicator_lt N m (by omega)
      rw [hone]
      have hz0 : (if (decide (m + 1 = 0)) = true then 1 else 0) = 0 := by simp
      rw [hz0]
      omega

/-! Object-list lemmas. -/

lemma mkObjects_length (sorted : List (List (ℕ × Point))) :
    (mkObjects sorted).length = sorted.length := by
  simp [mkObjects, List.enum_length]

lemma mkObjects_map_label (sorted : List (List (ℕ × Point))) :
    ((mkObjects sorted).map fun o => o.label) =
      (List.range sorted.length).map fun k => k + 1 := by
  unfold mkObjects
  rw [List.map_map]
  have h1 : ((fun o : ObjectInfo => o.label) ∘ fun kc : ℕ × List (ℕ × Point) =>
      ObjectInfo.mk (kc.1 + 1) kc.2.length (bboxMin kc.2) (bboxMax kc.2)) =
      ((fun k => k + 1) ∘ (Prod.fst : ℕ × List (ℕ × Point) → ℕ)) := rfl
  rw [h1, ← List.map_map, List.enum_map_fst]

lemma mkObjects_map_num (sorted : List (List (ℕ × Point))) :
    ((mkObjects sorted).map fun o => o.num_points) = sorted.map List.length := by
  unfold mkObjects
  rw [List.map_map]
  have h1 : ((fun o : ObjectInfo => o.num_points) ∘ fun kc : ℕ × List (ℕ × Point) =>
      ObjectInfo.mk (kc.1 + 1) kc.2.length (bboxMin kc.2) (bboxMax kc.2)) =
      (List.length ∘ (Prod.snd : ℕ × List (ℕ × Point) → List (ℕ × Point))) := rfl
  rw [h1, ← List.map_map, List.enum_map_snd]

lemma mem_mkObjects {sorted : List (List (ℕ × Point))} {o : ObjectInfo}
    (ho : o ∈ mkObjects sorted) :
    ∃ (k : ℕ) (hk : k < sorted.length),
      o.label = k + 1 ∧ o.num_points = (sorted.get ⟨k, hk⟩).length := by
  unfold mkObjects at ho
  rcases List.mem_map.mp ho with ⟨kc, hkc, rfl⟩
  have hdx := List.mem_enum_iff_getElem?.mp hkc
  rcases List.getElem?_eq_some.mp hdx with ⟨hlt, hval⟩
  refine ⟨kc.1, hlt, rfl, ?_⟩
  simp only [List.get_eq_getElem, hval]

lemma seg_branch_partition (pts : List Point) (sorted : List (List (ℕ × Point)))
    (hdisj : List.Pairwise (fun a b => (fsts a).Disjoint (fsts b)) sorted)
    (hnodup : ∀ cp ∈ sorted, (fsts cp).Nodup)
    (hsub : ∀ cp ∈ sorted, ∀ j ∈ fsts cp, j < pts.length) :
    (∀ sp ∈ pts.enum.map (segPointOf sorted), sp.label ≤ (mkObjects sorted).length) ∧
    (((mkObjects sorted).map fun o => o.label) =
      (List.range (mkObjects sorted).length).map fun k => k + 1) ∧
    (∀ o ∈ mkObjects sorted, o.num_points =
      ((pts.enum.map (segPointOf sorted)).filter fun sp =>
        decide (sp.label = o.label)).length) ∧
    (((mkObjects sorted).map fun o => o.num_points).sum +
        ((pts.enum.map (segPointOf sorted)).filter fun sp =>
          decide (sp.label = 0)).length =
      (pts.enum.map (segPointOf sorted)).length) := by
  have hle : ∀ sp ∈ pts.enum.map (segPointOf sorted), sp.label ≤ sorted.length := by
    intro sp hsp
    rcases List.mem_map.mp hsp with ⟨ip, _, rfl⟩
    exact labelOf_le sorted ip.1
  refine ⟨?_, ?_, ?_, ?_⟩
  · intro sp hsp
    rw [mkObjects_length]
    exact hle sp hsp
  · rw [mkObjects_length, mkObjects_map_label]
  · intro o ho
    rcases mem_mkObjects ho with ⟨k, hk, hlab, hnum⟩
    rw [hnum, hlab, ← List.countP_eq_length_filter]
    exact (countP_label_points pts sorted hdisj hnodup hsub k hk).symm
  · have hpart : (pts.enum.map (segPointOf sorted)).countP
          (fun sp => decide (sp.label = 0)) +
        ((List.range sorted.length).map fun k =>
          (pts.enum.map (segPointOf sorted)).countP fun sp =>
            decide (sp.label = k + 1)).sum =
        (pts.enum.map (segPointOf sorted)).length :=
      countP_label_partition (pts.enum.map (segPointOf sorted))
        (fun sp => sp.label) sorted.length hle
    rw [mkObjects_map_num, ← List.countP_eq_length_filter]
    have hsum : sorted.map List.length =
        (List.range sorted.length).map fun k =>
          (pts.enum.map (segPointOf sorted)).countP fun sp => decide (sp.label = k + 1) := by
      refine List.ext_getElem (by simp) ?_
      intro n h1 h2
      rw [List.getElem_map, List.getElem_map, List.getElem_range]
      have hn : n < sorted.length := by simpa using h1
      have hcount := countP_label_points pts sorted hdisj hnodup hsub n hn
      simp only [List.get_eq_getElem] at hcount
      exact hcount.symm
    rw [hsum]
    omega

/-- A residual's index list is a sublist of `range` of the cloud size. -/
lemma residualOf_fst_sublist (pts : List Point) (inl : List ℕ) :
    ((residualOf pts inl).map Prod.fst).Sublist (List.range pts.length) := by
  unfold residualOf
  have h1 := List.filter_sublist (p := fun ip : ℕ × Point => decide (ip.1 ∉ inl)) pts.enum
  have h2 := List.Sublist.map Prod.fst h1
  rwa [List.enum_map_fst] at h2

lemma residualOf_fst_nodup (pts : List Point) (inl : List ℕ) :
    ((residualOf pts inl).map Prod.fst).Nodup :=
  (residualOf_fst_sublist pts inl).nodup (List.nodup_range _)

lemma residualOf_mem_lt {pts : List Point} {inl : List ℕ} {q : ℕ × Point}
    (hq : q ∈ residualOf pts inl) : q.1 < pts.length := by
  unfold residualOf at hq
  have henum := List.mem_of_mem_filter hq
  rcases List.getElem?_eq_some.mp (List.mem_enum_iff_getElem?.mp henum) with ⟨hlt, _⟩
  exact hlt

/-- C1: in every segmentation response each point carries exactly one
label in `0..N` (`N` the number of objects), the object labels are
exactly `1..N`, each object's point count equals the number of points
carrying its label (the objects partition the points not labeled 0), and
the object point counts plus the label-0 count sum to the cloud size. -/
theorem segmentation_label_partition (fcfg : FitConfig) (ccfg : ClusterConfig)
    (c : PointCloud) :
    (∀ sp ∈ (segment fcfg ccfg c).points,
      sp.label ≤ (segment fcfg ccfg c).objects.length) ∧
    (((segment fcfg ccfg c).objects.map fun o => o.label) =
      (List.range (segment fcfg ccfg c).objects.length).map fun k => k + 1) ∧
    (∀ o ∈ (segment fcfg ccfg c).objects, o.num_points =
      ((segment fcfg ccfg c).points.filter fun sp =>
        decide (sp.label = o.label)).length) ∧
    (((segment fcfg ccfg c).objects.map fun o => o.num_points).sum +
        ((segment fcfg ccfg c).points.filter fun sp => decide (sp.label = 0)).length =
      (segment fcfg ccfg c).points.length) := by
  cases hpf : planeFit fcfg c.points with
  | none =>
    simp only [segment, hpf]
    refine ⟨?_, rfl, ?_, ?_⟩
    · intro sp hsp
      rcases List.mem_map.mp hsp with ⟨p, _, rfl⟩
      simp
    · intro o ho
      simp at ho
    · simp only [List.map_nil, List.sum_nil, Nat.zero_add]
      rw [← List.countP_eq_length_filter, List.countP_map]
      have hcomp : ((fun sp : SegPoint => decide (sp.label = 0)) ∘ fun p : Point =>
          SegPoint.mk p.x p.y p.z p.distance 0) = fun _ : Point => true := rfl
      rw [hcomp, List.countP_true, List.length_map]
  | some pr =>
    obtain ⟨pl, inl⟩ := pr
    have hnd := residualOf_fst_nodup c.points inl
    obtain ⟨hdisj, hnodup, hne, hmem⟩ :=
      clusterComponents_invariants ccfg (residualOf c.points inl) hnd
    have hsub : ∀ cp ∈ clusterComponents ccfg (residualOf c.points inl),
        ∀ j ∈ fsts cp, j < c.points.length := by
      intro cp hcp j hj
      rcases List.mem_map.mp hj with ⟨q, hq, rfl⟩
      exact residualOf_mem_lt (hmem cp hcp q hq)
    simp only [segment, hpf]
    exact seg_branch_partition c.points (clusterComponents ccfg (residualOf c.points inl))
      hdisj hnodup hsub

/-- C7: the surviving components receive labels `1..K` contiguously, in
strictly increasing order of the insertion index of each component's
first member in the residual sequence; the assignment is a deterministic
function of the residual, so repeated runs over the same static cloud
relabel identically. -/
theorem clusterer_label_order (ccfg : ClusterConfig) (rs : List (ℕ × Point))
    (hs : List.Pairwise (fun a b => a < b) (rs.map Prod.fst)) :
    (((mkObjects (clusterComponents ccfg rs)).map fun o => o.label) =
      (List.range (clusterComponents ccfg rs).length).map fun k => k + 1) ∧
    List.Pairwise (fun a b => minIdx a < minIdx b) (clusterComponents ccfg rs) ∧
    ∀ cp ∈ clusterComponents ccfg rs,
      minIdx cp ∈ fsts cp ∧ ∀ q ∈ cp, minIdx cp ≤ q.1 := by
  have hnd : (rs.map Prod.fst).Nodup := hs.imp fun h => Nat.ne_of_lt h
  obtain ⟨hdisj, _, hne, _⟩ := clusterComponents_invariants ccfg rs hnd
  refine ⟨mkObjects_map_label _, ?_, ?_⟩
  · have hsorted : List.Pairwise compLE (clusterComponents ccfg rs) :=
      List.sorted_insertionSort compLE _
    have hneq : List.Pairwise (fun a b => minIdx a ≠ minIdx b)
        (clusterComponents ccfg rs) := by
      refine hdisj.imp_of_mem ?_
      intro a b ha hb hab
      intro heq
      have hma := minIdx_mem (hne a ha)
      have hmb := minIdx_mem (hne b hb)
      rw [heq] at hma
      exact hab hma hmb
    refine (hsorted.and hneq).imp ?_
    intro a b hab
    exact lt_of_le_of_ne hab.1 hab.2
  · intro cp hcp
    exact ⟨minIdx_mem (hne cp hcp), fun q hq => minIdx_le hq⟩

/-- Distinct residual fixtures used by the clusterer witness: two points
within the clustering radius and one far away. -/
def rsW : List (ℕ × Point) :=
  [(0, ⟨0, 0, 0, 0⟩), (1, ⟨1 / 10, 0, 0, 0⟩), (5, ⟨10, 0, 0, 0⟩)]

theorem clusterer_label_order_witness :
    (((mkObjects (clusterComponents ccfg0 rsW)).map fun o => o.label) =
      (List.range (clusterComponents ccfg0 rsW).length).map fun k => k + 1) ∧
    List.Pairwise (fun a b => minIdx a < minIdx b) (clusterComponents ccfg0 rsW) :=
  ⟨(clusterer_label_order ccfg0 rsW (by decide)).1,
    (clusterer_label_order ccfg0 rsW (by decide)).2.1⟩

/-- A small concrete cloud fixture: three points spanning the plane
`z = 0` plus one off-plane point. -/
def cloudW : PointCloud :=
  ⟨"meters", [⟨0, 0, 0, 0⟩, ⟨1, 0, 0, 1⟩, ⟨0, 1, 0, 1⟩, ⟨0, 0, 1, 2⟩]⟩

theorem segmentation_label_partition_witness :
    ((segment cfg0 ccfg0 cloudW).objects.map fun o => o.num_points).sum +
        ((segment cfg0 ccfg0 cloudW).points.filter fun sp => decide (sp.label = 0)).length =
      (segment cfg0 ccfg0 cloudW).points.length :=
  (segmentation_label_partition cfg0 ccfg0 cloudW).2.2.2

theorem segmentation_plane_null_witness :
    ((segment cfg0 ccfg0 cloudW).plane = none ↔ planeFit cfg0 cloudW.points = none) ∧
    (segment cfg0 ccfg0 cloudW).points.length = cloudW.size :=
  ⟨(segmentation_plane_null cfg0 ccfg0 cloudW).1,
    (segmentation_plane_null cfg0 ccfg0 cloudW).2.2⟩

theorem segmentation_empty_degrades_witness :
    segment cfg0 ccfg0 ⟨"meters", []⟩ = ⟨"meters", [], [], none⟩ :=
  (segmentation_empty_degrades cfg0 ccfg0 "meters" cloudEmpty).1

/-- A concrete laser head origin used by the sendSample witness. -/
noncomputable def vOrigin : Vec3 := ⟨0, 2, 0⟩

/-- A concrete hit point used by the sendSample witness. -/
noncomputable def vHit : Vec3 := ⟨0, 0, 0⟩

theorem sendSample_distance_euclidean_witness :
    (sendSample vHit vOrigin).distance = dist vOrigin.toEuclidean vHit.toEuclidean :=
  (sendSample_distance_euclidean vHit vOrigin).1

end LaserMapping
